import Mathlib

/-!
Verification of the `postgres-baileys` session persistence layer.

This file gives a shallow embedding of the repository's source
(`src/index.ts`): the Buffer/JSON codec (`bufferToJSON`, `jsonToBuffer`),
credential initialization (`initAuthCreds`), and the `PostgreSQLAuthState`
store (key derivation, `writeData`/`readData`/`removeData`, the
`keys.get`/`keys.set` interface of `getAuthState`, `deleteSession`, and the
SSL inference helpers `shouldEnableSSL`/`getSSLConfig`/`isCloudDatabase`).

Modelling conventions:
* JavaScript dynamic values are embedded as the inductive type `JVal`
  (scalars, `null`, Buffers, arrays, plain objects).  `undefined` is
  conflated with `null`: the two are indistinguishable for every operation
  modelled here (truthiness, JSON round trips through the `data` column).
* JSON-safe values (the output of `JSON.parse` / input of `JSON.stringify`,
  i.e. the content of the `data` column) are the Buffer-free type `JsonVal`.
  `JSON.stringify` followed by `JSON.parse` is the identity on such trees,
  so the `data` column is modelled as holding the `JsonVal` tree itself.
* The SQL table `auth_data` (primary key `session_key`, column `data`) is an
  association list `Table`; `INSERT .. ON CONFLICT DO UPDATE` is `upsert`,
  `DELETE .. WHERE session_key = $1` is `deleteKey`, and
  `DELETE .. WHERE session_key LIKE $1` is a filter by the SQL `LIKE`
  matcher `likeMatch` (with `%`, `_` and the default escape `\`).
* External collaborators (the Baileys `Curve`/`signedKeyPair`/
  `generateRegistrationId` helpers, node's `randomBytes`, base64 encoding,
  and the protobuf constructor `proto.Message.AppStateSyncKeyData.create`)
  are modelled as explicit inputs: randomness is a `Randomness` record,
  signing and base64 are function parameters, and the protobuf constructor
  is the tagged wrapper `GotVal.ask` (it never returns its raw argument
  unchanged; it builds a fresh message object from it).
* Reads (`SELECT`) do not modify the table; operations that issue only a
  `SELECT` are given the state-passing type `Table → α × Table` so that
  "performs no write" is a provable statement about the embedded code path.
-/

/-- JavaScript values as handled by the codec: scalars, `null`
(conflating `undefined`), binary `Buffer` payloads (byte arrays), arrays
and plain objects (field lists; JS objects have no duplicate keys, property
access is modelled by first-match lookup). -/
inductive JVal where
  | null : JVal
  | bool (b : Bool) : JVal
  | num (n : Int) : JVal
  | str (s : String) : JVal
  | buf (bs : List (Fin 256)) : JVal
  | arr (xs : List JVal) : JVal
  | obj (fs : List (String × JVal)) : JVal

/-- JSON-safe values: what `JSON.stringify` writes into and `JSON.parse`
reads out of the `data` column.  No Buffers can appear here. -/
inductive JsonVal where
  | null : JsonVal
  | bool (b : Bool) : JsonVal
  | num (n : Int) : JsonVal
  | str (s : String) : JsonVal
  | arr (xs : List JsonVal) : JsonVal
  | obj (fs : List (String × JsonVal)) : JsonVal

/-- JavaScript truthiness of a `JVal` (`null`/`undefined`, `false`, `0` and
`""` are falsy; objects, arrays and Buffers are always truthy). -/
def truthy : JVal → Bool
  | .null => false
  | .bool b => b
  | .num n => n != 0
  | .str s => s != ""
  | .buf _ => true
  | .arr _ => true
  | .obj _ => true

mutual

/-- `bufferToJSON` from the source: Buffers become
`{ type: 'Buffer', data: Array.from(buffer) }`, arrays and plain objects are
walked recursively, everything else passes through.  (The `toJSON` hook
branch is subsumed here: of the values in the model's domain only Buffers
carry a `toJSON` hook, and those are already handled by the
`Buffer.isBuffer` branch that precedes it.) -/
def bufferToJSON : JVal → JsonVal
  | .null => .null
  | .bool b => .bool b
  | .num n => .num n
  | .str s => .str s
  | .buf bs => .obj [("type", .str "Buffer"), ("data", .arr (bufferToJSONBytes bs))]
  | .arr xs => .arr (bufferToJSONList xs)
  | .obj fs => .obj (bufferToJSONFields fs)

/-- `Array.from(buffer)`: the byte values of a Buffer as JSON numbers. -/
def bufferToJSONBytes : List (Fin 256) → List JsonVal
  | [] => []
  | b :: bs => .num b.val :: bufferToJSONBytes bs

/-- `obj.map(bufferToJSON)` on an array. -/
def bufferToJSONList : List JVal → List JsonVal
  | [] => []
  | x :: xs => bufferToJSON x :: bufferToJSONList xs

/-- The `for (const key in obj)` own-property walk of `bufferToJSON`. -/
def bufferToJSONFields : List (String × JVal) → List (String × JsonVal)
  | [] => []
  | (k, v) :: fs => (k, bufferToJSON v) :: bufferToJSONFields fs

end

/-- The byte coercion applied by `Buffer.from(array)` to each array
element: numbers are taken modulo 256 (JS `ToUint8`); elements that are not
numbers (which never occur in serialized output) coerce to 0. -/
def toByte (v : JsonVal) : Fin 256 :=
  match v with
  | .num n => ⟨(n % 256).toNat, by omega⟩
  | _ => 0

/-- `obj.type === 'Buffer'` for a looked-up field value (`none` models the
`undefined` of a missing property). -/
def jsonTagIsBuffer : Option JsonVal → Bool
  | some (.str s) => s == "Buffer"
  | _ => false

/-- `Array.isArray(obj.data)` for a looked-up field value. -/
def jsonDataIsArray : Option JsonVal → Bool
  | some (.arr _) => true
  | _ => false

/-- The discriminator test of `jsonToBuffer`:
`obj && obj.type === 'Buffer' && Array.isArray(obj.data)` on a plain
object's field list. -/
def isBufShape (fs : List (String × JsonVal)) : Bool :=
  jsonTagIsBuffer (List.lookup "type" fs) && jsonDataIsArray (List.lookup "data" fs)

mutual

/-- `jsonToBuffer` from the source: a value matching the discriminator
shape (`type === 'Buffer'` with an array `data` field) is reconstituted via
`Buffer.from(obj.data)`; arrays and other objects are walked recursively;
everything else passes through.  Total: it never raises. -/
def jsonToBuffer : JsonVal → JVal
  | .null => .null
  | .bool b => .bool b
  | .num n => .num n
  | .str s => .str s
  | .arr xs => .arr (jsonToBufferList xs)
  | .obj fs =>
    match List.lookup "type" fs, List.lookup "data" fs with
    | some (.str "Buffer"), some (.arr l) => .buf (jsonToBufferBytes l)
    | _, _ => .obj (jsonToBufferFields fs)

/-- `Buffer.from(obj.data)`: each element coerced to a byte. -/
def jsonToBufferBytes : List JsonVal → List (Fin 256)
  | [] => []
  | x :: xs => toByte x :: jsonToBufferBytes xs

/-- `obj.map(jsonToBuffer)` on an array. -/
def jsonToBufferList : List JsonVal → List JVal
  | [] => []
  | x :: xs => jsonToBuffer x :: jsonToBufferList xs

/-- The `for (const key in obj)` own-property walk of `jsonToBuffer`. -/
def jsonToBufferFields : List (String × JsonVal) → List (String × JVal)
  | [] => []
  | (k, v) :: fs => (k, jsonToBuffer v) :: jsonToBufferFields fs

end

/-- `obj.type === 'Buffer'` on the `JVal` side. -/
def jvalTagIsBuffer : Option JVal → Bool
  | some (.str s) => s == "Buffer"
  | _ => false

/-- `Array.isArray(obj.data)` on the `JVal` side. -/
def jvalDataIsArray : Option JVal → Bool
  | some (.arr _) => true
  | _ => false

/-- A plain object whose fields spell the Buffer discriminator
(`type` equal to `"Buffer"` together with an array `data` field). -/
def isBufShapeJ (fs : List (String × JVal)) : Bool :=
  jvalTagIsBuffer (List.lookup "type" fs) && jvalDataIsArray (List.lookup "data" fs)

mutual

/-- A `JVal` is clean when no plain object anywhere inside it spells the
Buffer discriminator shape itself. -/
def cleanVal : JVal → Bool
  | .null => true
  | .bool _ => true
  | .num _ => true
  | .str _ => true
  | .buf _ => true
  | .arr xs => cleanList xs
  | .obj fs => !isBufShapeJ fs && cleanFields fs

def cleanList : List JVal → Bool
  | [] => true
  | x :: xs => cleanVal x && cleanList xs

def cleanFields : List (String × JVal) → Bool
  | [] => true
  | (_, v) :: fs => cleanVal v && cleanFields fs

end


/-- The `auth_data` table: an association list from the `session_key`
primary-key column to the JSON tree held by the `data` column.  The primary
key guarantees at most one row per key; the operations below preserve
key-uniqueness and address the first matching row. -/
def Table : Type := List (String × JsonVal)

/-- `INSERT INTO auth_data (session_key, data) VALUES ($1, $2)
ON CONFLICT (session_key) DO UPDATE SET data = EXCLUDED.data`:
update the existing row for the key, or append a new row. -/
def upsert : Table → String → JsonVal → Table
  | [], k, v => [(k, v)]
  | r :: t, k, v => if r.1 = k then (k, v) :: t else r :: upsert t k v

/-- `DELETE FROM auth_data WHERE session_key = $1`. -/
def deleteKey (t : Table) (k : String) : Table :=
  t.filter (fun r => !(r.1 == k))

/-- `getKey` from the source: the physical key is
`sessionId + ":" + logicalKey`. -/
def getKey (sessionId key : String) : String :=
  sessionId ++ ":" ++ key

/-- `writeData` from the source: serialize through `bufferToJSON` (then
`JSON.stringify`, the identity on the resulting tree) and upsert under the
derived physical key. -/
def writeData (t : Table) (sessionId key : String) (data : JVal) : Table :=
  upsert t (getKey sessionId key) (bufferToJSON data)

/-- `readData` from the source: select the row for the derived physical
key and deserialize through `JSON.parse` (the identity on the stored tree)
and `jsonToBuffer`; a missing row yields `null`. -/
def readData (t : Table) (sessionId key : String) : JVal :=
  match List.lookup (getKey sessionId key) t with
  | some d => jsonToBuffer d
  | none => .null

/-- `removeData` from the source: delete the row for the derived physical
key. -/
def removeData (t : Table) (sessionId key : String) : Table :=
  deleteKey t (getKey sessionId key)

/-- One entry of the collection passed to `keys.set`: a category paired
with its id-to-value map, or `none` when the category maps to
`null`/`undefined` (the source guards with `categoryData || {}`). -/
abbrev SetEntry : Type := String × Option (List (String × JVal))

/-- The flattened `(logicalKey, value)` tasks built by `keys.set`:
`Object.entries(data).flatMap(([category, categoryData]) =>
Object.entries(categoryData || {}).map(([id, value]) => ...))` with the
logical key `category + "-" + id`. -/
def setOps (data : List SetEntry) : List (String × JVal) :=
  data.flatMap (fun cd => (cd.2.getD []).map (fun iv => (cd.1 ++ "-" ++ iv.1, iv.2)))

/-- One task of `keys.set`: `value ? writeData(key, value) :
removeData(key)` — JavaScript truthiness decides between upsert and
delete. -/
def applyOp (sessionId : String) (t : Table) (op : String × JVal) : Table :=
  if truthy op.2 then writeData t sessionId op.1 op.2 else removeData t sessionId op.1

/-- `keys.set` from `getAuthState`: run every task.  The tasks are awaited
with `Promise.all`; distinct triples address distinct rows, so the model
linearizes them in list order. -/
def setKeyed (t : Table) (sessionId : String) (data : List SetEntry) : Table :=
  (setOps data).foldl (applyOp sessionId) t

/-- The value `keys.get` stores into its result record for one id.
`ask v` models `proto.Message.AppStateSyncKeyData.create(v)`: the external
protobuf constructor, which builds a fresh message object from the raw
deserialized value (in particular it never returns a scalar unchanged);
`plain v` is the raw deserialized value itself (with `plain null` as the
absent marker for ids with no stored record). -/
inductive GotVal where
  | plain (v : JVal) : GotVal
  | ask (v : JVal) : GotVal

/-- `keys.get` from `getAuthState`, per requested id: read
`type + "-" + id`; for category `app-state-sync-key` a truthy value is
passed through `proto.Message.AppStateSyncKeyData.create`. -/
def keysGet (t : Table) (sessionId ty id : String) : GotVal :=
  let value := readData t sessionId (ty ++ "-" ++ id)
  if ty = "app-state-sync-key" && truthy value then .ask value else .plain value

/-- `keys.get` over a list of requested ids (`ids.map(...)` under
`Promise.all`; each id writes its own slot of the result record). -/
def keysGetAll (t : Table) (sessionId ty : String) (ids : List String) :
    List (String × GotVal) :=
  ids.map (fun id => (id, keysGet t sessionId ty id))

/-- SQL `LIKE` pattern matching (PostgreSQL semantics): `%` matches any
sequence, `_` any single character, and the default escape `\` makes the
next pattern character literal (a pattern ending in a bare `\` matches
nothing: PostgreSQL rejects it).  Structural on the pattern so that
concrete instances compute. -/
def likeMatch : List Char → List Char → Bool
  | [], t => t.isEmpty
  | c :: ps, t =>
    if c = '%' then t.tails.any (fun suf => likeMatch ps suf)
    else if c = '\\' then
      match ps, t with
      | p :: ps2, c2 :: ts => (c2 == p) && likeMatch ps2 ts
      | _, _ => false
    else if c = '_' then
      match t with
      | [] => false
      | _ :: ts => likeMatch ps ts
    else
      match t with
      | [] => false
      | c2 :: ts => (c == c2) && likeMatch ps ts

/-- `deleteSession` from the source:
`DELETE FROM auth_data WHERE session_key LIKE $1` with the pattern
`sessionId + ":%"`. -/
def deleteSession (t : Table) (sessionId : String) : Table :=
  t.filter (fun r => !(likeMatch (sessionId ++ ":%").data r.1.data))

/-- `String.prototype.includes` (substring containment, not suffix
matching). -/
def jsIncludes (s sub : String) : Bool :=
  s.data.tails.any (fun t => sub.data.isPrefixOf t)

/-- `String.prototype.toLowerCase` for the ASCII hostnames at play. -/
def jsToLower (s : String) : String :=
  ⟨s.data.map Char.toLower⟩

/-- The cloud-provider fragment list of `isCloudDatabase`. -/
def cloudProviders : List String :=
  [".compute-1.amazonaws.com", ".compute.amazonaws.com", "ec2-",
   ".rds.amazonaws.com", ".rds.", ".gcp.neon.tech", ".googleusercontent.com",
   ".postgres.database.azure.com", ".database.windows.net",
   ".db.ondigitalocean.com", ".railway.app", ".neon.tech", ".planetscale.sh",
   ".supabase.co"]

/-- `isCloudDatabase` from the source:
`cloudProviders.some(provider => hostname.includes(provider))`. -/
def isCloudDatabase (hostname : String) : Bool :=
  cloudProviders.any (fun provider => jsIncludes hostname provider)

/-- The SSL value the store passes to the `pg` Pool: JavaScript `false`
(disabled) or the object `{ rejectUnauthorized: false }` (enabled with
relaxed certificate verification). -/
inductive SSLSetting where
  | disabled : SSLSetting
  | relaxed : SSLSetting
deriving DecidableEq

/-- The hostname-based decision shared by lines 159–164 and 171–176 of the
source: cloud hostnames get relaxed SSL; otherwise `localhost`/`127.0.0.1`
disables SSL and every other hostname gets relaxed SSL. -/
def sslDecision (hostname : String) : SSLSetting :=
  if isCloudDatabase hostname then .relaxed
  else if hostname = "localhost" ∨ hostname = "127.0.0.1" then .disabled
  else .relaxed

/-- `shouldEnableSSL` from the source (config-object path): lowercase
`config.host`, then decide. -/
def shouldEnableSSL (host : String) : SSLSetting :=
  sslDecision (jsToLower host)

/-- `getSSLConfig` from the source (connection-URL path): if the string
mentions `sslmode=` or `ssl=` return `undefined` (the connection string
wins); otherwise decide from the URL hostname (which the WHATWG URL parser
has already lowercased). -/
def getSSLConfig (connectionString urlHostname : String) : Option SSLSetting :=
  if jsIncludes connectionString "sslmode=" || jsIncludes connectionString "ssl=" then
    none
  else
    some (sslDecision urlHostname)

/-- A Curve25519 key pair as produced by the external
`Curve.generateKeyPair` (a `{ private, public }` pair of byte strings). -/
structure KeyPair where
  priv : List Nat
  pub : List Nat

/-- The result of the external Baileys `signedKeyPair` helper: a fresh
prekey pair, a signature produced with the identity private key, and the
key index. -/
structure SignedKeyPair where
  keyPair : KeyPair
  signature : List Nat
  keyId : Nat

/-- `signedKeyPair(identityKeyPair, keyId)` from the Baileys utils
(external collaborator): generate a prekey pair (`preKey`, drawn from the
randomness source), sign its public key with the identity private key, and
attach the index. -/
def signedKeyPair (sign : List Nat → List Nat → List Nat)
    (identityKeyPair : KeyPair) (preKey : KeyPair) (keyId : Nat) : SignedKeyPair :=
  { keyPair := preKey, signature := sign identityKeyPair.priv preKey.pub, keyId := keyId }

/-- `accountSettings` of the credentials bundle. -/
structure AccountSettings where
  unarchiveChats : Bool

/-- The randomness drawn by one call of `initAuthCreds` from the external
generators (`Curve.generateKeyPair`, `generateRegistrationId`,
`randomBytes(32)`): `randomBytes(32)` always returns exactly 32 bytes. -/
structure Randomness where
  noiseKey : KeyPair
  identityKey : KeyPair
  preKey : KeyPair
  registrationId : Nat
  advSecret : { l : List Nat // l.length = 32 }
  pairingEphemeralKey : KeyPair

/-- The `AuthenticationCreds` bundle, with the fields `initAuthCreds`
populates.  `pairingCode`, `lastPropHash` and `routingInfo` are optional
(`undefined` is `none`). -/
structure AuthenticationCreds where
  noiseKey : KeyPair
  signedIdentityKey : KeyPair
  signedPreKey : SignedKeyPair
  registrationId : Nat
  advSecretKey : String
  processedHistoryMessages : List JVal
  nextPreKeyId : Nat
  firstUnuploadedPreKeyId : Nat
  accountSyncCounter : Nat
  accountSettings : AccountSettings
  registered : Bool
  pairingEphemeralKeyPair : KeyPair
  pairingCode : Option String
  lastPropHash : Option String
  routingInfo : Option (List Nat)

/-- `initAuthCreds` from the source: pure record construction from the
drawn randomness; `sign` models `Curve.sign` (used inside `signedKeyPair`)
and `b64` models `Buffer.toString('base64')`.  No I/O: the result is a
function of the drawn randomness only. -/
def initAuthCreds (sign : List Nat → List Nat → List Nat)
    (b64 : List Nat → String) (r : Randomness) : AuthenticationCreds :=
  { noiseKey := r.noiseKey
    signedIdentityKey := r.identityKey
    signedPreKey := signedKeyPair sign r.identityKey r.preKey 1
    registrationId := r.registrationId
    advSecretKey := b64 r.advSecret.val
    processedHistoryMessages := []
    nextPreKeyId := 1
    firstUnuploadedPreKeyId := 1
    accountSyncCounter := 0
    accountSettings := { unarchiveChats := false }
    registered := false
    pairingEphemeralKeyPair := r.pairingEphemeralKey
    pairingCode := none
    lastPropHash := none
    routingInfo := none }

/-- The credentials value produced by `getAuthState`: either the stored
(deserialized) record, or a freshly generated bundle. -/
inductive CredsResult where
  | stored (v : JVal) : CredsResult
  | fresh (c : AuthenticationCreds) : CredsResult

/-- The credentials step of `getAuthState`:
`(await this.readData('auth_creds')) || initAuthCreds()`.  The method only
issues a `SELECT` here, so it returns the table unchanged; the returned
table makes that a provable statement. -/
def getCredsOp (t : Table) (sessionId : String)
    (sign : List Nat → List Nat → List Nat) (b64 : List Nat → String)
    (r : Randomness) : CredsResult × Table :=
  let v := readData t sessionId "auth_creds"
  (if truthy v then .stored v else .fresh (initAuthCreds sign b64 r), t)

/-- Structural validity of a credentials bundle, following §4.3 of the
specification: identity-signed prekey with index 1, counters starting at 1,
empty history, non-archiving default settings, unregistered, and unset
pairing code / prop hash / routing info. -/
def validCreds (c : AuthenticationCreds) : Prop :=
  c.signedPreKey.keyId = 1 ∧ c.nextPreKeyId = 1 ∧ c.firstUnuploadedPreKeyId = 1 ∧
  c.processedHistoryMessages = [] ∧ c.accountSyncCounter = 0 ∧
  c.accountSettings.unarchiveChats = false ∧ c.registered = false ∧
  c.pairingCode = none ∧ c.lastPropHash = none ∧ c.routingInfo = none

/-- No character of the string is a `LIKE` metacharacter (`%`, `_`) or the
default escape character `\`. -/
def noLikeMeta (s : String) : Prop :=
  ∀ c ∈ s.data, c ≠ '%' ∧ c ≠ '_' ∧ c ≠ '\\'

instance (s : String) : Decidable (noLikeMeta s) := by
  unfold noLikeMeta
  infer_instance

/-- `p` is a literal prefix of `t` (character-wise). -/
def strStartsWith : List Char → List Char → Bool
  | [], _ => true
  | _ :: _, [] => false
  | c :: cs, d :: ds => (c == d) && strStartsWith cs ds

/-- A degenerate stand-in for the external `Curve.sign`, used to
instantiate theorems at concrete inputs. -/
def zeroSign : List Nat → List Nat → List Nat := fun _ _ => []

/-- A degenerate stand-in for the external base64 encoder, used to
instantiate theorems at concrete inputs. -/
def zeroB64 : List Nat → String := fun _ => ""

/-- A concrete draw of randomness, used to instantiate theorems at
concrete inputs. -/
def zeroRand : Randomness :=
  { noiseKey := ⟨[], []⟩
    identityKey := ⟨[], []⟩
    preKey := ⟨[], []⟩
    registrationId := 0
    advSecret := ⟨List.replicate 32 0, by simp⟩
    pairingEphemeralKey := ⟨[], []⟩ }

/-- Structural induction for `JVal` through the nested lists. -/
theorem JVal.indOn (P : JVal → Prop)
    (hnull : P .null) (hbool : ∀ b, P (.bool b)) (hnum : ∀ n, P (.num n))
    (hstr : ∀ s, P (.str s)) (hbuf : ∀ bs, P (.buf bs))
    (harr : ∀ xs, (∀ x ∈ xs, P x) → P (.arr xs))
    (hobj : ∀ fs, (∀ kv ∈ fs, P kv.2) → P (.obj fs)) :
    ∀ v, P v := by
  have main : ∀ n : Nat, ∀ v : JVal, sizeOf v ≤ n → P v := by
    intro n
    induction n with
    | zero => intro v hv; exfalso; cases v <;> simp at hv
    | succ n ih =>
      intro v _hv
      cases v with
      | null => exact hnull
      | bool b => exact hbool b
      | num m => exact hnum m
      | str s => exact hstr s
      | buf bs => exact hbuf bs
      | arr xs =>
        refine harr xs (fun x hx => ih x ?_)
        have h1 := List.sizeOf_lt_of_mem hx
        have h2 : sizeOf (JVal.arr xs) = 1 + sizeOf xs := by simp
        omega
      | obj fs =>
        refine hobj fs (fun kv hkv => ih kv.2 ?_)
        have h1 := List.sizeOf_lt_of_mem hkv
        have h2 : sizeOf kv.2 < sizeOf kv := by
          obtain ⟨k, w⟩ := kv; simp
        have h3 : sizeOf (JVal.obj fs) = 1 + sizeOf fs := by simp
        omega
  exact fun v => main (sizeOf v) v le_rfl

theorem lookup_bufferToJSONFields (k : String) (fs : List (String × JVal)) :
    List.lookup k (bufferToJSONFields fs) = (List.lookup k fs).map bufferToJSON := by
  induction fs with
  | nil => rfl
  | cons kv fs ih =>
    obtain ⟨k', v⟩ := kv
    simp only [bufferToJSONFields, List.lookup]
    cases h : k == k' <;> simp [ih]

theorem jsonTagIsBuffer_map (o : Option JVal) :
    jsonTagIsBuffer (o.map bufferToJSON) = jvalTagIsBuffer o := by
  cases o with
  | none => rfl
  | some v => cases v <;> rfl

theorem jsonDataIsArray_map (o : Option JVal) :
    jsonDataIsArray (o.map bufferToJSON) = jvalDataIsArray o := by
  cases o with
  | none => rfl
  | some v => cases v <;> rfl

theorem isBufShape_bufferToJSONFields (fs : List (String × JVal)) :
    isBufShape (bufferToJSONFields fs) = isBufShapeJ fs := by
  unfold isBufShape isBufShapeJ
  rw [lookup_bufferToJSONFields, lookup_bufferToJSONFields,
    jsonTagIsBuffer_map, jsonDataIsArray_map]

theorem jsonToBuffer_obj_of_not_shape (fs : List (String × JsonVal))
    (h : isBufShape fs = false) :
    jsonToBuffer (.obj fs) = .obj (jsonToBufferFields fs) := by
  unfold jsonToBuffer
  split
  · rename_i l hty hda
    exfalso
    unfold isBufShape at h
    rw [hty, hda] at h
    simp [jsonTagIsBuffer, jsonDataIsArray] at h
  · rfl

theorem jsonToBuffer_obj_of_shape (fs : List (String × JsonVal))
    (l : List JsonVal)
    (hty : List.lookup "type" fs = some (.str "Buffer"))
    (hda : List.lookup "data" fs = some (.arr l)) :
    jsonToBuffer (.obj fs) = .buf (jsonToBufferBytes l) := by
  unfold jsonToBuffer
  rw [hty, hda]
  rfl

theorem toByte_byte (b : Fin 256) : toByte (.num (b : Nat)) = b := by
  unfold toByte
  apply Fin.ext
  have hb := b.isLt
  simp
  omega

theorem jsonToBufferBytes_bufferToJSONBytes (bs : List (Fin 256)) :
    jsonToBufferBytes (bufferToJSONBytes bs) = bs := by
  induction bs with
  | nil => rfl
  | cons b bs ih =>
    simp only [bufferToJSONBytes, jsonToBufferBytes, ih, toByte_byte]

theorem cleanList_mem {xs : List JVal} (h : cleanList xs = true) :
    ∀ x ∈ xs, cleanVal x = true := by
  induction xs with
  | nil => intro x hx; cases hx
  | cons y ys ih =>
    simp only [cleanList, Bool.and_eq_true] at h
    intro x hx
    rcases List.mem_cons.1 hx with rfl | hx
    · exact h.1
    · exact ih h.2 x hx

theorem cleanFields_mem {fs : List (String × JVal)} (h : cleanFields fs = true) :
    ∀ kv ∈ fs, cleanVal kv.2 = true := by
  induction fs with
  | nil => intro kv hkv; cases hkv
  | cons kv' fs ih =>
    obtain ⟨k, v⟩ := kv'
    simp only [cleanFields, Bool.and_eq_true] at h
    intro kv hkv
    rcases List.mem_cons.1 hkv with rfl | hkv
    · exact h.1
    · exact ih h.2 kv hkv

theorem jsonToBufferList_roundtrip (xs : List JVal)
    (ih : ∀ x ∈ xs, cleanVal x = true → jsonToBuffer (bufferToJSON x) = x)
    (h : cleanList xs = true) :
    jsonToBufferList (bufferToJSONList xs) = xs := by
  induction xs with
  | nil => rfl
  | cons y ys ihl =>
    simp only [cleanList, Bool.and_eq_true] at h
    simp only [bufferToJSONList, jsonToBufferList]
    rw [ih y (List.mem_cons_self y ys) h.1,
      ihl (fun x hx hc => ih x (List.mem_cons_of_mem y hx) hc) h.2]

theorem jsonToBufferFields_roundtrip (fs : List (String × JVal))
    (ih : ∀ kv ∈ fs, cleanVal kv.2 = true → jsonToBuffer (bufferToJSON kv.2) = kv.2)
    (h : cleanFields fs = true) :
    jsonToBufferFields (bufferToJSONFields fs) = fs := by
  induction fs with
  | nil => rfl
  | cons kv fs ihl =>
    obtain ⟨k, v⟩ := kv
    simp only [cleanFields, Bool.and_eq_true] at h
    simp only [bufferToJSONFields, jsonToBufferFields]
    rw [ih (k, v) (List.mem_cons_self _ fs) h.1,
      ihl (fun kv hkv hc => ih kv (List.mem_cons_of_mem _ hkv) hc) h.2]

theorem codec_roundtrip_of_clean :
    ∀ v : JVal, cleanVal v = true → jsonToBuffer (bufferToJSON v) = v := by
  intro v
  induction v using JVal.indOn with
  | hnull => intro _; rfl
  | hbool b => intro _; rfl
  | hnum n => intro _; rfl
  | hstr s => intro _; rfl
  | hbuf bs =>
    intro _
    have key : jsonToBuffer
        (.obj [("type", .str "Buffer"), ("data", .arr (bufferToJSONBytes bs))]) =
        .buf (jsonToBufferBytes (bufferToJSONBytes bs)) := rfl
    show jsonToBuffer
        (.obj [("type", .str "Buffer"), ("data", .arr (bufferToJSONBytes bs))]) = .buf bs
    rw [key, jsonToBufferBytes_bufferToJSONBytes]
  | harr xs ih =>
    intro h
    show jsonToBuffer (.arr (bufferToJSONList xs)) = .arr xs
    unfold jsonToBuffer
    rw [jsonToBufferList_roundtrip xs ih (by simpa [cleanVal] using h)]
  | hobj fs ih =>
    intro h
    show jsonToBuffer (.obj (bufferToJSONFields fs)) = .obj fs
    simp only [cleanVal, Bool.and_eq_true, Bool.not_eq_true'] at h
    rw [jsonToBuffer_obj_of_not_shape _ (by rw [isBufShape_bufferToJSONFields]; exact h.1)]
    rw [jsonToBufferFields_roundtrip fs ih h.2]

theorem strAppendCancel (a : String) {b c : String} (h : a ++ b = a ++ c) : b = c := by
  obtain ⟨ad⟩ := a
  obtain ⟨bd⟩ := b
  obtain ⟨cd⟩ := c
  apply congrArg String.mk
  have h2 : ad ++ bd = ad ++ cd := congrArg String.data h
  exact List.append_cancel_left h2

theorem getKey_inj (s : String) {k1 k2 : String} (h : getKey s k1 = getKey s k2) :
    k1 = k2 :=
  strAppendCancel (s ++ ":") h

theorem lookup_upsert_self (t : Table) (k : String) (v : JsonVal) :
    List.lookup k (upsert t k v) = some v := by
  induction t with
  | nil => simp [upsert, List.lookup]
  | cons r t ih =>
    obtain ⟨rk, rv⟩ := r
    by_cases h : rk = k
    · subst h
      simp [upsert, List.lookup]
    · simp only [upsert]
      rw [if_neg h]
      simp only [List.lookup]
      have : (k == rk) = false := by simp [Ne.symm h]
      rw [this]
      exact ih

theorem lookup_upsert_ne (t : Table) (k : String) (v : JsonVal) {k' : String}
    (h : k' ≠ k) : List.lookup k' (upsert t k v) = List.lookup k' t := by
  induction t with
  | nil =>
    have hb : (k' == k) = false := by simp [h]
    simp [upsert, List.lookup, hb]
  | cons r t ih =>
    obtain ⟨rk, rv⟩ := r
    by_cases hr : rk = k
    · subst hr
      simp only [upsert, if_pos rfl, List.lookup]
      have hb : (k' == rk) = false := by simp [h]
      rw [hb]
    · simp only [upsert]
      rw [if_neg hr]
      simp only [List.lookup]
      cases hk : k' == rk
      · exact ih
      · rfl

theorem lookup_filter_key (q : String → Bool) (t : Table) (k : String) :
    List.lookup k (t.filter (fun r => q r.1)) =
      if q k then List.lookup k t else none := by
  induction t with
  | nil => simp [List.lookup]
  | cons r t ih =>
    obtain ⟨rk, rv⟩ := r
    by_cases hk : k = rk
    · subst hk
      cases hq : q k
      · simp only [List.filter, hq, ih, hq]
        simp [List.lookup, hq]
      · simp [List.filter, hq, List.lookup]
    · have hbeq : (k == rk) = false := by simp [hk]
      cases hq : q rk
      · simp only [List.filter, hq, ih]
        simp [List.lookup, hbeq]
      · simp only [List.filter, hq]
        simp only [List.lookup, hbeq, ih]

theorem lookup_deleteKey_self (t : Table) (k : String) :
    List.lookup k (deleteKey t k) = none := by
  unfold deleteKey
  rw [lookup_filter_key (fun x => !(x == k)) t k]
  simp

theorem lookup_deleteKey_ne (t : Table) (k : String) {k' : String} (h : k' ≠ k) :
    List.lookup k' (deleteKey t k) = List.lookup k' t := by
  unfold deleteKey
  rw [lookup_filter_key (fun x => !(x == k)) t k']
  simp [h]

theorem lookup_applyOp_ne (s : String) (t : Table) (op : String × JVal)
    {key : String} (h : key ≠ getKey s op.1) :
    List.lookup key (applyOp s t op) = List.lookup key t := by
  unfold applyOp writeData removeData
  cases truthy op.2
  · simp only [Bool.false_eq_true, if_false]
    exact lookup_deleteKey_ne t _ h
  · simp only [if_true]
    exact lookup_upsert_ne t _ _ h

theorem lookup_foldl_applyOp_ne (s : String) (ops : List (String × JVal))
    (t : Table) {key : String} (h : ∀ op ∈ ops, key ≠ getKey s op.1) :
    List.lookup key (ops.foldl (applyOp s) t) = List.lookup key t := by
  induction ops generalizing t with
  | nil => rfl
  | cons op rest ih =>
    simp only [List.foldl_cons]
    rw [ih (applyOp s t op) (fun o ho => h o (List.mem_cons_of_mem op ho)),
      lookup_applyOp_ne s t op (h op (List.mem_cons_self op rest))]

theorem lookup_foldl_applyOp (s : String) (ops : List (String × JVal))
    (t : Table) {k : String} {v : JVal} (hmem : (k, v) ∈ ops)
    (hnodup : (ops.map Prod.fst).Nodup) :
    List.lookup (getKey s k) (ops.foldl (applyOp s) t) =
      if truthy v then some (bufferToJSON v) else none := by
  induction ops generalizing t with
  | nil => cases hmem
  | cons op rest ih =>
    obtain ⟨k0, v0⟩ := op
    simp only [List.map_cons, List.nodup_cons] at hnodup
    simp only [List.foldl_cons]
    rcases List.mem_cons.1 hmem with heq | hmem2
    · injection heq with hk hv
      subst hk
      subst hv
      have hframe : ∀ op ∈ rest, getKey s k ≠ getKey s op.1 := by
        intro op hop heq2
        exact hnodup.1 (List.mem_map.2 ⟨op, hop, (getKey_inj s heq2).symm⟩)
      rw [lookup_foldl_applyOp_ne s rest _ hframe]
      unfold applyOp
      cases htr : truthy v
      · simp only [Bool.false_eq_true, if_false]
        exact lookup_deleteKey_self t (getKey s k)
      · simp only [if_true]
        exact lookup_upsert_self t (getKey s k) (bufferToJSON v)
    · have hk : k ≠ k0 := by
        intro hkeq
        exact hnodup.1 (hkeq ▸ (List.mem_map.2 ⟨(k, v), hmem2, rfl⟩))
      exact ih (applyOp s t (k0, v0)) hmem2 hnodup.2


theorem likeMatch_percent_all (t : List Char) : likeMatch ['%'] t = true := by
  unfold likeMatch
  rw [if_pos rfl]
  apply List.any_eq_true.2
  exact ⟨[], (List.mem_tails _ _).2 List.nil_suffix, rfl⟩

theorem likeMatch_literal_nil (c : Char) (hc : c ≠ '%' ∧ c ≠ '_' ∧ c ≠ '\\')
    (ps : List Char) : likeMatch (c :: ps) [] = false := by
  rw [likeMatch.eq_3 c ps (fun p ps2 c2 ts _ habs => List.noConfusion habs)]
  rw [if_neg hc.1, if_neg hc.2.2, if_neg hc.2.1]

theorem likeMatch_literal_cons (c : Char) (hc : c ≠ '%' ∧ c ≠ '_' ∧ c ≠ '\\')
    (ps : List Char) (c2 : Char) (ts : List Char) :
    likeMatch (c :: ps) (c2 :: ts) = ((c == c2) && likeMatch ps ts) := by
  cases ps with
  | nil =>
    rw [likeMatch.eq_4 c [] c2 ts (fun p ps2 c3 ts2 habs _ => List.noConfusion habs)]
    rw [if_neg hc.1, if_neg hc.2.2, if_neg hc.2.1]
  | cons p ps2 =>
    rw [likeMatch.eq_2]
    rw [if_neg hc.1, if_neg hc.2.2, if_neg hc.2.1]

theorem likeMatch_lit_percent (lit : List Char)
    (h : ∀ c ∈ lit, c ≠ '%' ∧ c ≠ '_' ∧ c ≠ '\\') (t : List Char) :
    likeMatch (lit ++ ['%']) t = strStartsWith lit t := by
  induction lit generalizing t with
  | nil =>
    rw [List.nil_append, likeMatch_percent_all]
    rfl
  | cons c cs ih =>
    rw [List.cons_append]
    cases t with
    | nil =>
      rw [likeMatch_literal_nil c (h c (List.mem_cons_self c cs))]
      rfl
    | cons c2 ts =>
      rw [likeMatch_literal_cons c (h c (List.mem_cons_self c cs)),
        ih (fun x hx => h x (List.mem_cons_of_mem c hx)) ts]
      rfl

/-- For a session identifier free of `LIKE` metacharacters, the
`deleteSession` filter keeps exactly the rows whose key does not start with
`sessionId + ":"`. -/
theorem deleteSession_eq_filter (t : Table) (s : String) (h : noLikeMeta s) :
    deleteSession t s =
      t.filter (fun r => !(strStartsWith (s ++ ":").data r.1.data)) := by
  unfold deleteSession
  apply List.filter_congr
  intro r _
  have hdata : (s ++ ":%").data = (s ++ ":").data ++ ['%'] := by
    show s.data ++ [':', '%'] = (s.data ++ [':']) ++ ['%']
    rw [List.append_assoc]
    rfl
  rw [hdata, likeMatch_lit_percent]
  intro c hc
  rcases List.mem_append.1 hc with hc1 | hc2
  · exact h c hc1
  · rcases List.mem_singleton.1 hc2 with rfl
    refine ⟨by decide, by decide, by decide⟩

theorem colon_split {a : List Char} {u : List Char} :
    ∀ {b v : List Char}, ':' ∉ a → ':' ∉ b →
      a ++ ':' :: u = b ++ ':' :: v → a = b ∧ u = v := by
  induction a with
  | nil =>
    intro b v _ hb h
    cases b with
    | nil =>
      simp only [List.nil_append] at h
      exact ⟨rfl, (List.cons.inj h).2⟩
    | cons y bs =>
      exfalso
      simp only [List.nil_append, List.cons_append] at h
      have hy := (List.cons.inj h).1
      exact hb (hy ▸ List.mem_cons_self y bs)
  | cons x as ih =>
    intro b v ha hb h
    cases b with
    | nil =>
      exfalso
      simp only [List.cons_append, List.nil_append] at h
      have hx := (List.cons.inj h).1
      exact ha (hx ▸ List.mem_cons_self x as)
    | cons y bs =>
      simp only [List.cons_append] at h
      obtain ⟨hxy, hrest⟩ := List.cons.inj h
      have has : ':' ∉ as := fun hmem => ha (List.mem_cons_of_mem x hmem)
      have hbs : ':' ∉ bs := fun hmem => hb (List.mem_cons_of_mem y hmem)
      obtain ⟨hab, huv⟩ := ih has hbs hrest
      exact ⟨by rw [hxy, hab], huv⟩

/-- Physical keys derived from colon-free, distinct session identifiers
never collide. -/
theorem getKey_cross_ne {s1 s2 : String} (h1 : ':' ∉ s1.data)
    (h2 : ':' ∉ s2.data) (hne : s1 ≠ s2) (k1 k2 : String) :
    getKey s1 k1 ≠ getKey s2 k2 := by
  intro h
  have hd : s1.data ++ ':' :: k1.data = s2.data ++ ':' :: k2.data := by
    have h3 := congrArg String.data h
    simpa [getKey, List.append_assoc] using h3
  obtain ⟨hs, _⟩ := colon_split h1 h2 hd
  apply hne
  obtain ⟨d1⟩ := s1
  obtain ⟨d2⟩ := s2
  exact congrArg String.mk hs

theorem strStartsWith_append (p rest : List Char) :
    strStartsWith p (p ++ rest) = true := by
  induction p with
  | nil => rfl
  | cons c cs ih => simp [strStartsWith, ih]

theorem mem_setOps {data : List SetEntry} {cat : String}
    {cd : List (String × JVal)} {id : String} {v : JVal}
    (h1 : (cat, some cd) ∈ data) (h2 : (id, v) ∈ cd) :
    (cat ++ "-" ++ id, v) ∈ setOps data := by
  unfold setOps
  refine List.mem_flatMap.2 ⟨(cat, some cd), h1, ?_⟩
  simp only [Option.getD_some]
  exact List.mem_map.2 ⟨(id, v), h2, rfl⟩

/--
C1 (corrected).  Codec round trip on every value built from scalars,
`null`, arrays, plain objects and Buffers, provided no plain object inside
the value itself spells the Buffer discriminator shape (a `type` field
equal to `"Buffer"` together with an array `data` field):
`jsonToBuffer (bufferToJSON v) = v`, so in particular every binary payload
in the result is byte-for-byte the payload of `v`.  The unrestricted claim
is refuted by `codec_roundtrip_fake_shape_counterexample`.
-/
theorem codec_roundtrip (v : JVal) (h : cleanVal v = true) :
    jsonToBuffer (bufferToJSON v) = v :=
  codec_roundtrip_of_clean v h

/--
C1, counterexample to the unrestricted claim: the plain (non-Buffer)
object `{type: 'Buffer', data: [1]}` is serialized to itself and then
deserialized into the Buffer `<01>`, which is not deeply equal to the
original object.
-/
theorem codec_roundtrip_fake_shape_counterexample :
    jsonToBuffer (bufferToJSON
        (JVal.obj [("type", .str "Buffer"), ("data", .arr [.num 1])]))
      = JVal.buf [1]
  ∧ JVal.buf [1] ≠ JVal.obj [("type", .str "Buffer"), ("data", .arr [.num 1])] :=
  ⟨rfl, fun h => JVal.noConfusion h⟩

/--
C1, witness: the round trip at a concrete object nesting Buffers at
depth 1 and inside an array, with bytes 0, 5 and 255.
-/
theorem codec_roundtrip_witness :
    cleanVal (JVal.obj
        [("a", .buf [5, 255]), ("b", .arr [.buf [0], .null, .num 3])]) = true
  ∧ jsonToBuffer (bufferToJSON (JVal.obj
        [("a", .buf [5, 255]), ("b", .arr [.buf [0], .null, .num 3])]))
      = JVal.obj [("a", .buf [5, 255]), ("b", .arr [.buf [0], .null, .num 3])] :=
  ⟨rfl, codec_roundtrip
    (JVal.obj [("a", .buf [5, 255]), ("b", .arr [.buf [0], .null, .num 3])]) rfl⟩

/--
C9 (confirmed).  Deserialization is total (`jsonToBuffer` is a total
function, so it never raises) and treats partially matching discriminator
shapes as plain data: for every object whose field list does not pass the
discriminator test (`type` equal to `'Buffer'` AND an array `data` field),
`jsonToBuffer` only recurses into the fields; and a binary payload is
reconstituted exactly when the discriminator test passes, via
`Buffer.from` on the `data` array.
-/
theorem jsonToBuffer_malformed_shape (fs : List (String × JsonVal)) :
    (isBufShape fs = false → jsonToBuffer (.obj fs) = .obj (jsonToBufferFields fs))
  ∧ (∀ l, List.lookup "type" fs = some (.str "Buffer") →
      List.lookup "data" fs = some (.arr l) →
      jsonToBuffer (.obj fs) = .buf (jsonToBufferBytes l)) :=
  ⟨jsonToBuffer_obj_of_not_shape fs,
   fun l hty hda => jsonToBuffer_obj_of_shape fs l hty hda⟩

/--
C9, witness: `{type: 'Buffer', data: 0}` (data not an array) and
`{data: [300]}` (discriminator absent) pass through as plain data, while
the exact shape `{type: 'Buffer', data: [1]}` is reconstituted.
-/
theorem jsonToBuffer_malformed_shape_witness :
    jsonToBuffer (.obj [("type", JsonVal.str "Buffer"), ("data", JsonVal.num 0)])
      = JVal.obj [("type", .str "Buffer"), ("data", .num 0)]
  ∧ jsonToBuffer (.obj [("data", JsonVal.arr [JsonVal.num 300])])
      = JVal.obj [("data", .arr [.num 300])]
  ∧ jsonToBuffer (.obj [("type", JsonVal.str "Buffer"), ("data", JsonVal.arr [JsonVal.num 1])])
      = JVal.buf [1] :=
  ⟨(jsonToBuffer_malformed_shape
      [("type", JsonVal.str "Buffer"), ("data", JsonVal.num 0)]).1 rfl,
   (jsonToBuffer_malformed_shape
      [("data", JsonVal.arr [JsonVal.num 300])]).1 rfl,
   (jsonToBuffer_malformed_shape
      [("type", JsonVal.str "Buffer"), ("data", JsonVal.arr [JsonVal.num 1])]).2
      [JsonVal.num 1] rfl rfl⟩

/--
C2 (corrected).  Keyed set semantics: for a collection whose flattened
`(category-id)` keys are pairwise distinct, each `(category, id, value)`
triple leaves the row under physical key `sessionId:category-id` holding
the serialized value exactly when the value is truthy, and leaves no such
row exactly when the value is falsy (`null`/`undefined`, `false`, `0`,
`""`); in particular, after a prior write, setting an id to `null` removes
the record and a subsequent keyed get returns the absent marker.  The
claim's "writes exactly when value is non-null" is refuted at the non-null
falsy value `0` by `setKeyed_nonnull_counterexample`.
-/
theorem setKeyed_spec (t : Table) (s : String) (data : List SetEntry)
    (cat : String) (cd : List (String × JVal)) (id : String) (v : JVal)
    (h1 : (cat, some cd) ∈ data) (h2 : (id, v) ∈ cd)
    (hnodup : ((setOps data).map Prod.fst).Nodup) :
    List.lookup (getKey s (cat ++ "-" ++ id)) (setKeyed t s data) =
      (if truthy v then some (bufferToJSON v) else none)
  ∧ (truthy v = false → keysGet (setKeyed t s data) s cat id = .plain .null) := by
  have hmain := lookup_foldl_applyOp s (setOps data) t (mem_setOps h1 h2) hnodup
  refine ⟨hmain, fun hf => ?_⟩
  rw [hf, if_neg (by simp)] at hmain
  have hmain2 : List.lookup (getKey s (cat ++ "-" ++ id)) (setKeyed t s data) = none :=
    hmain
  simp [keysGet, readData, hmain2, truthy]

/--
C2, counterexample: after a prior write of `7` under `cat`/`id1`, setting
the value `0` — which is non-null — deletes the row instead of upserting
it, because the source dispatches on JavaScript truthiness
(`value ? writeData : removeData`), not on a null test.
-/
theorem setKeyed_nonnull_counterexample :
    List.lookup (getKey "s" ("cat" ++ "-" ++ "id1"))
        (setKeyed (setKeyed [] "s" [("cat", some [("id1", JVal.num 7)])])
          "s" [("cat", some [("id1", JVal.num 0)])]) = none
  ∧ JVal.num 0 ≠ JVal.null :=
  ⟨rfl, fun h => JVal.noConfusion h⟩

/--
C2, witness: writing `7` under `catA`/`id1` and then setting `id1` to
`null` leaves no row, and the keyed get returns the absent marker.
-/
theorem setKeyed_witness :
    List.lookup (getKey "s" ("catA" ++ "-" ++ "id1"))
        (setKeyed [(getKey "s" ("catA" ++ "-" ++ "id1"), JsonVal.num 7)]
          "s" [("catA", some [("id1", JVal.null)])]) = none
  ∧ keysGet (setKeyed [(getKey "s" ("catA" ++ "-" ++ "id1"), JsonVal.num 7)]
        "s" [("catA", some [("id1", JVal.null)])]) "s" "catA" "id1"
      = .plain .null := by
  have h := setKeyed_spec
    [(getKey "s" ("catA" ++ "-" ++ "id1"), JsonVal.num 7)] "s"
    [("catA", some [("id1", JVal.null)])] "catA" [("id1", JVal.null)]
    "id1" JVal.null (List.mem_cons_self _ _) (List.mem_cons_self _ _)
    (by decide)
  exact ⟨h.1.trans rfl, h.2 rfl⟩

/--
C10 (confirmed).  The keyed set operation tolerates a `null`/`undefined`
category map: an entry whose category data is absent contributes no
operations (`Object.entries(categoryData || {})` is empty), so the
resulting table is exactly the table produced by the remaining entries —
and the call is total.
-/
theorem setKeyed_null_category (t : Table) (s : String)
    (pre post : List SetEntry) (cat : String) :
    setKeyed t s (pre ++ (cat, none) :: post) = setKeyed t s (pre ++ post) := by
  unfold setKeyed setOps
  rw [List.flatMap_append, List.flatMap_append, List.flatMap_cons]
  simp

/--
C3 (confirmed).  With no stored `auth_creds` row for the session, the
credentials step of `getAuthState` returns a freshly generated,
structurally valid bundle and leaves the table exactly as it was (it only
issues a `SELECT`); the absence of credentials raises no error.
-/
theorem getCreds_absent_fresh (t : Table) (s : String)
    (sign : List Nat → List Nat → List Nat) (b64 : List Nat → String)
    (r : Randomness)
    (h : List.lookup (getKey s "auth_creds") t = none) :
    getCredsOp t s sign b64 r = (.fresh (initAuthCreds sign b64 r), t)
  ∧ validCreds (initAuthCreds sign b64 r) := by
  constructor
  · show (if truthy (readData t s "auth_creds")
        then CredsResult.stored (readData t s "auth_creds")
        else .fresh (initAuthCreds sign b64 r), t)
      = (.fresh (initAuthCreds sign b64 r), t)
    unfold readData
    rw [h]
    rfl
  · exact ⟨rfl, rfl, rfl, rfl, rfl, rfl, rfl, rfl, rfl, rfl⟩

/--
C3, witness: on the empty table and session `"sid"`, the credentials step
yields a fresh valid bundle and the table stays empty.
-/
theorem getCreds_absent_fresh_witness :
    getCredsOp [] "sid" zeroSign zeroB64 zeroRand
      = (.fresh (initAuthCreds zeroSign zeroB64 zeroRand), [])
  ∧ validCreds (initAuthCreds zeroSign zeroB64 zeroRand) :=
  getCreds_absent_fresh [] "sid" zeroSign zeroB64 zeroRand rfl

/--
C7 (confirmed).  `initAuthCreds` is a pure function of the randomness it
draws (hence no I/O) and returns a bundle with: the noise key pair, the
identity key pair, a signed prekey whose pair is the drawn prekey, whose
signature is produced with the identity private key and whose index is 1,
the drawn random registration id, the base64 encoding of the 32-byte
random secret, an empty processed-history list, both prekey counters at 1,
non-archiving account settings, `registered = false`, the ephemeral
pairing key pair, and `pairingCode`/`lastPropHash`/`routingInfo` unset.
-/
theorem initAuthCreds_spec (sign : List Nat → List Nat → List Nat)
    (b64 : List Nat → String) (r : Randomness) :
    (initAuthCreds sign b64 r).noiseKey = r.noiseKey
  ∧ (initAuthCreds sign b64 r).signedIdentityKey = r.identityKey
  ∧ (initAuthCreds sign b64 r).signedPreKey
      = signedKeyPair sign r.identityKey r.preKey 1
  ∧ (initAuthCreds sign b64 r).signedPreKey.keyId = 1
  ∧ (initAuthCreds sign b64 r).signedPreKey.signature
      = sign r.identityKey.priv r.preKey.pub
  ∧ (initAuthCreds sign b64 r).registrationId = r.registrationId
  ∧ (initAuthCreds sign b64 r).advSecretKey = b64 r.advSecret.val
  ∧ r.advSecret.val.length = 32
  ∧ (initAuthCreds sign b64 r).processedHistoryMessages = []
  ∧ (initAuthCreds sign b64 r).nextPreKeyId = 1
  ∧ (initAuthCreds sign b64 r).firstUnuploadedPreKeyId = 1
  ∧ (initAuthCreds sign b64 r).accountSyncCounter = 0
  ∧ (initAuthCreds sign b64 r).accountSettings.unarchiveChats = false
  ∧ (initAuthCreds sign b64 r).registered = false
  ∧ (initAuthCreds sign b64 r).pairingEphemeralKeyPair = r.pairingEphemeralKey
  ∧ (initAuthCreds sign b64 r).pairingCode = none
  ∧ (initAuthCreds sign b64 r).lastPropHash = none
  ∧ (initAuthCreds sign b64 r).routingInfo = none :=
  ⟨rfl, rfl, rfl, rfl, rfl, rfl, rfl, r.advSecret.property, rfl, rfl, rfl,
   rfl, rfl, rfl, rfl, rfl, rfl, rfl⟩

/--
C4 (corrected).  For a session identifier containing no SQL `LIKE`
metacharacter (`%`, `_`) and no escape character (`\`), `deleteSession`
removes exactly the rows whose physical key starts with `sessionId + ":"`:
afterwards every logical key of that session reads as absent (the lookup
under `sessionId:key` is gone and `readData` yields `null`), and every row
whose key does not start with `sessionId + ":"` is untouched.  For session
identifiers containing `LIKE` metacharacters the claim fails, see
`deleteSession_wildcard_counterexample`.
-/
theorem deleteSession_spec (t : Table) (s : String) (h : noLikeMeta s) :
    deleteSession t s
      = t.filter (fun r => !(strStartsWith (s ++ ":").data r.1.data))
  ∧ (∀ k, List.lookup (getKey s k) (deleteSession t s) = none)
  ∧ (∀ k, readData (deleteSession t s) s k = .null)
  ∧ (∀ k2, strStartsWith (s ++ ":").data k2.data = false →
      List.lookup k2 (deleteSession t s) = List.lookup k2 t) := by
  have hfilter := deleteSession_eq_filter t s h
  have habsent : ∀ k, List.lookup (getKey s k) (deleteSession t s) = none := by
    intro k
    rw [hfilter,
      lookup_filter_key (fun x => !(strStartsWith (s ++ ":").data x.data)) t]
    have hpref : strStartsWith (s ++ ":").data (getKey s k).data = true := by
      show strStartsWith (s ++ ":").data ((s ++ ":").data ++ k.data) = true
      exact strStartsWith_append (s ++ ":").data k.data
    rw [hpref]
    rfl
  refine ⟨hfilter, habsent, fun k => ?_, fun k2 hk2 => ?_⟩
  · unfold readData
    rw [habsent k]
  · rw [hfilter,
      lookup_filter_key (fun x => !(strStartsWith (s ++ ":").data x.data)) t,
      hk2]
    rfl

/--
C4, counterexample: with session identifier `"a%"`, the `LIKE` pattern
`a%:%` also matches the key `"ab:k"` of a different session, so
`deleteSession` removes a row whose physical key does not start with
`"a%:"` — the claim's "removes exactly the rows whose physical key starts
with sessionId + ':'" fails.
-/
theorem deleteSession_wildcard_counterexample :
    deleteSession [("ab:k", JsonVal.num 1)] "a%" = []
  ∧ strStartsWith ("a%" ++ ":").data "ab:k".data = false :=
  ⟨rfl, rfl⟩

/--
C4, witness: deleting session `"s1"` removes its row and leaves the row of
session `"s2"` unchanged.
-/
theorem deleteSession_witness :
    List.lookup (getKey "s1" "pre-key-3")
      (deleteSession [(getKey "s1" "pre-key-3", JsonVal.num 1),
        (getKey "s2" "b", JsonVal.num 2)] "s1") = none
  ∧ List.lookup (getKey "s2" "b")
      (deleteSession [(getKey "s1" "pre-key-3", JsonVal.num 1),
        (getKey "s2" "b", JsonVal.num 2)] "s1") = some (JsonVal.num 2) := by
  have h := deleteSession_spec
    [(getKey "s1" "pre-key-3", JsonVal.num 1), (getKey "s2" "b", JsonVal.num 2)]
    "s1" (by decide)
  exact ⟨h.2.1 "pre-key-3", ((h.2.2.2 (getKey "s2" "b") rfl)).trans rfl⟩

/--
C5 (corrected).  Key derivation and namespacing: every operation addresses
the physical key `getKey sessionId key = sessionId ++ ":" ++ key`
(`writeData`/`readData`/`removeData` are definitionally upsert/select/
delete at that key), and for two *colon-free*, distinct session
identifiers a write under one is invisible to the credentials read and the
keyed get of the other.  Without the colon-freeness restriction the
isolation consequence fails, see `namespacing_counterexample`.
-/
theorem namespacing_spec (s1 s2 : String) (h1 : ':' ∉ s1.data)
    (h2 : ':' ∉ s2.data) (hne : s1 ≠ s2) (t : Table) (k : String) (v : JVal) :
    (∀ key, getKey s1 key = s1 ++ ":" ++ key)
  ∧ (∀ key, writeData t s1 key v = upsert t (getKey s1 key) (bufferToJSON v))
  ∧ (∀ key2, readData (writeData t s1 k v) s2 key2 = readData t s2 key2)
  ∧ (∀ ty id, keysGet (writeData t s1 k v) s2 ty id = keysGet t s2 ty id)
  ∧ (∀ sign b64 r, (getCredsOp (writeData t s1 k v) s2 sign b64 r).1
      = (getCredsOp t s2 sign b64 r).1) := by
  have hread : ∀ key2, readData (writeData t s1 k v) s2 key2 = readData t s2 key2 := by
    intro key2
    unfold readData writeData
    rw [lookup_upsert_ne t (getKey s1 k) (bufferToJSON v)
      (getKey_cross_ne h2 h1 (Ne.symm hne) key2 k)]
  refine ⟨fun key => rfl, fun key => rfl, hread, fun ty id => ?_, fun sign b64 r => ?_⟩
  · unfold keysGet
    rw [hread (ty ++ "-" ++ id)]
  · show (if truthy (readData (writeData t s1 k v) s2 "auth_creds")
        then CredsResult.stored (readData (writeData t s1 k v) s2 "auth_creds")
        else .fresh (initAuthCreds sign b64 r))
      = (if truthy (readData t s2 "auth_creds")
        then CredsResult.stored (readData t s2 "auth_creds")
        else .fresh (initAuthCreds sign b64 r))
    rw [hread "auth_creds"]

/--
C5, counterexample: session identifiers may contain `":"`, and logical
keys are concatenated without escaping, so store `"a"` writing category
`"b:c"`, id `"d"` produces the same physical key `"a:b:c-d"` that store
`"a:b"` reads for category `"c"`, id `"d"`: two stores with different
session identifiers observe each other's records through the keyed get.
-/
theorem namespacing_counterexample :
    ("a" : String) ≠ "a:b"
  ∧ keysGet (setKeyed [] "a" [("b:c", some [("d", JVal.num 1)])]) "a:b" "c" "d"
      = .plain (.num 1)
  ∧ GotVal.plain (JVal.num 1) ≠ GotVal.plain JVal.null := by
  refine ⟨by decide, rfl, fun h => ?_⟩
  injection h with h2
  exact JVal.noConfusion h2

/--
C5, witness: with colon-free distinct sessions `"s1"` and `"s2"`, a write
under `"s1"` changes neither `"s2"`'s reads nor its keyed get.
-/
theorem namespacing_witness :
    readData (writeData [] "s1" "k" (JVal.num 5)) "s2" "k" = readData [] "s2" "k"
  ∧ keysGet (writeData [] "s1" "k" (JVal.num 5)) "s2" "pre-key" "3"
      = keysGet [] "s2" "pre-key" "3" :=
  ⟨(namespacing_spec "s1" "s2" (by decide) (by decide) (by decide)
      [] "k" (JVal.num 5)).2.2.1 "k",
   (namespacing_spec "s1" "s2" (by decide) (by decide) (by decide)
      [] "k" (JVal.num 5)).2.2.2.1 "pre-key" "3"⟩

/--
C6 (corrected).  SSL inference on both construction paths, with every
hostname comparison performed on the lowercased hostname (the config path
lowercases `config.host`; the WHATWG URL parser hands `getSSLConfig` an
already-lowercased hostname): a hostname whose lowercasing matches a cloud
provider fragment resolves to enabled with relaxed verification; otherwise
lowercased `localhost`/`127.0.0.1` resolves to disabled and every other
hostname to enabled with relaxed verification; in particular
`mydb.rds.amazonaws.com` resolves to enabled-relaxed and `localhost` to
disabled.  The claim as stated over raw hostnames fails at `"LOCALHOST"`,
see `ssl_uppercase_counterexample`.
-/
theorem ssl_inference (host : String) :
    (isCloudDatabase (jsToLower host) = true → shouldEnableSSL host = .relaxed)
  ∧ (isCloudDatabase (jsToLower host) = false →
      (jsToLower host = "localhost" ∨ jsToLower host = "127.0.0.1") →
      shouldEnableSSL host = .disabled)
  ∧ (isCloudDatabase (jsToLower host) = false →
      jsToLower host ≠ "localhost" → jsToLower host ≠ "127.0.0.1" →
      shouldEnableSSL host = .relaxed)
  ∧ (∀ cs : String, jsIncludes cs "sslmode=" = false →
      jsIncludes cs "ssl=" = false →
      getSSLConfig cs (jsToLower host) = some (sslDecision (jsToLower host)))
  ∧ shouldEnableSSL "mydb.rds.amazonaws.com" = .relaxed
  ∧ shouldEnableSSL "localhost" = .disabled := by
  refine ⟨?_, ?_, ?_, ?_, by decide, by decide⟩
  · intro hc
    simp [shouldEnableSSL, sslDecision, hc]
  · intro hc hloc
    simp only [shouldEnableSSL, sslDecision, hc]
    rw [if_neg (by simp), if_pos hloc]
  · intro hc hl1 hl2
    simp [shouldEnableSSL, sslDecision, hc, hl1, hl2]
  · intro cs hc1 hc2
    simp [getSSLConfig, hc1, hc2]

/--
C6, counterexample: the hostname `"LOCALHOST"` is neither the literal
`localhost` nor `127.0.0.1` nor a cloud match, so the claim's trichotomy
assigns it enabled-with-relaxed-verification; the source lowercases first
and disables SSL.
-/
theorem ssl_uppercase_counterexample :
    shouldEnableSSL "LOCALHOST" = .disabled
  ∧ ("LOCALHOST" : String) ≠ "localhost"
  ∧ ("LOCALHOST" : String) ≠ "127.0.0.1"
  ∧ isCloudDatabase "LOCALHOST" = false := by
  refine ⟨by decide, by decide, by decide, by decide⟩

/--
C6, witness: the two scenario hostnames of the claim.
-/
theorem ssl_inference_witness :
    shouldEnableSSL "mydb.rds.amazonaws.com" = .relaxed
  ∧ shouldEnableSSL "localhost" = .disabled :=
  ⟨(ssl_inference "mydb.rds.amazonaws.com").1 (by decide),
   (ssl_inference "localhost").2.1 (by decide) (Or.inl (by decide))⟩

/--
C8 (corrected).  Keyed get routing per requested id: an id with no stored
row maps to the explicit absent marker (`null`); a stored row under any
category other than `app-state-sync-key` is returned as the raw
deserialized value; a stored row under `app-state-sync-key` whose
deserialized value is truthy (which holds for every value writable through
the keyed set operation) is passed through the protobuf reconstruction
`proto.Message.AppStateSyncKeyData.create`.  For a falsy stored value the
reconstruction is skipped, refuting the unrestricted claim: see
`keyed_get_falsy_counterexample`.
-/
theorem keyed_get_spec (t : Table) (s ty id : String) :
    (List.lookup (getKey s (ty ++ "-" ++ id)) t = none →
      keysGet t s ty id = .plain .null)
  ∧ (∀ d, List.lookup (getKey s (ty ++ "-" ++ id)) t = some d →
      ty ≠ "app-state-sync-key" →
      keysGet t s ty id = .plain (jsonToBuffer d))
  ∧ (∀ d, List.lookup (getKey s ("app-state-sync-key" ++ "-" ++ id)) t = some d →
      truthy (jsonToBuffer d) = true →
      keysGet t s "app-state-sync-key" id = .ask (jsonToBuffer d)) := by
  refine ⟨fun h => ?_, fun d hd hty => ?_, fun d hd htr => ?_⟩
  · simp [keysGet, readData, h, truthy]
  · simp [keysGet, readData, hd, hty]
  · have hd2 : List.lookup (getKey s ("app-state-sync-key-" ++ id)) t = some d := hd
    simp [keysGet, readData, hd2, htr]

/--
C8, counterexample: a stored row holding the JSON value `0` under
`app-state-sync-key` is present but falsy, so the source's guard
`type === 'app-state-sync-key' && value` skips the reconstruction and
returns the raw `0` — not the reconstruction applied to it.
-/
theorem keyed_get_falsy_counterexample :
    keysGet [(getKey "s" ("app-state-sync-key" ++ "-" ++ "k1"), JsonVal.num 0)]
        "s" "app-state-sync-key" "k1" = .plain (.num 0)
  ∧ GotVal.plain (JVal.num 0) ≠ GotVal.ask (JVal.num 0) :=
  ⟨rfl, fun h => GotVal.noConfusion h⟩

/--
C8, witness: absent id maps to the absent marker; a stored prekey row is
returned raw; a stored truthy `app-state-sync-key` row is passed through
the reconstruction.
-/
theorem keyed_get_witness :
    keysGet [] "s" "pre-key" "3" = .plain .null
  ∧ keysGet [(getKey "s" ("pre-key" ++ "-" ++ "3"), JsonVal.num 7)]
      "s" "pre-key" "3" = .plain (.num 7)
  ∧ keysGet [(getKey "s" ("app-state-sync-key" ++ "-" ++ "k"),
        JsonVal.obj [("keyData", JsonVal.str "x")])]
      "s" "app-state-sync-key" "k" = .ask (.obj [("keyData", .str "x")]) :=
  ⟨(keyed_get_spec [] "s" "pre-key" "3").1 rfl,
   (keyed_get_spec [(getKey "s" ("pre-key" ++ "-" ++ "3"), JsonVal.num 7)]
      "s" "pre-key" "3").2.1 (JsonVal.num 7) rfl (by decide),
   (keyed_get_spec [(getKey "s" ("app-state-sync-key" ++ "-" ++ "k"),
        JsonVal.obj [("keyData", JsonVal.str "x")])]
      "s" "app-state-sync-key" "k").2.2
      (JsonVal.obj [("keyData", JsonVal.str "x")]) rfl rfl⟩
